import Mathlib

/-!
Verification development for the real-time speech streaming clients
(`scripts/stt_from_file_rust_server.py`, `scripts/stt_from_mic_rust_server.py`,
`client/python/tts_client.py`).

The Python sources are shallowly embedded: pure computations become Lean
functions, the asyncio senders become explicit state-passing functions in
which every `await` is a potential cancellation-delivery point, the
websocket connection is modelled by the index of the first send attempt
that finds it closed, and `asyncio.shield` is modelled as a
cancellation-independent region (the spec's "cancellation-independent
execution path").  Python floats are modelled as exact rationals.
-/

namespace StreamingClient

/-! ### Protocol constants (stt_from_file_rust_server.py lines 20-23) -/
def SAMPLE_RATE : ℕ := 24000

def FRAME_SIZE : ℕ := 1920

def WS_CLOSE_REASON : String := "client finished streaming"

/-- `SILENCE_SECOND = [0.0] * SAMPLE_RATE`. -/
def SILENCE_SECOND : List ℚ := List.replicate SAMPLE_RATE 0

/-- stt_from_mic_rust_server.py line 88: index of the 2.0-second pause head. -/
def PAUSE_PREDICTION_HEAD_INDEX : ℕ := 2

/-! ### Wire messages

The tagged variants carried over the websocket (spec §3 `WireMessage`).
`pcm`, `start_time`, `stop_time` and `prs` are Python floats, modelled as
rationals; the marker id is a small non-negative integer. -/
inductive WireMessage where
  | audio (pcm : List ℚ)
  | word (text : String) (start_time : ℚ)
  | endWord (stop_time : ℚ)
  | step (prs : List ℚ)
  | marker (id : ℕ)
deriving DecidableEq, Repr

/-! ### Frame codec (C9)

`msgpack.packb`/`msgpack.unpackb` of a field-name-keyed map is modelled at
the map level: a message is encoded to an association list from field name
to a msgpack value, and decoded by looking fields up by name exactly as the
Python receivers do (`data["type"]`, `data["text"]`, ...). -/
inductive MValue where
  | str (s : String)
  | num (q : ℚ)
  | int (n : ℕ)
  | arr (vs : List MValue)

/-- Field lookup in a msgpack map, first match wins. -/
def mapLookup : List (String × MValue) → String → Option MValue
  | [], _ => none
  | (k, v) :: rest, key => if k = key then some v else mapLookup rest key

/-- Modelled from the spec: the repository only encodes `Audio` frames
(`send_audio`, stt_from_file_rust_server.py lines 62-68) and the `Marker`
frame (line 70); the `Word`, `EndWord` and `Step` arms are the server-side
encoder, which is not part of this repository, laid out per the spec's
field-name-keyed map contract with exact field names `type`, `text`,
`start_time`, `stop_time`, `prs`. -/
def encode : WireMessage → List (String × MValue)
  | .audio pcm => [(("type"), .str ("Audio")), (("pcm"), .arr (pcm.map MValue.num))]
  | .word t s =>
      [(("type"), .str ("Word")), (("text"), .str t), (("start_time"), .num s)]
  | .endWord s => [(("type"), .str ("EndWord")), (("stop_time"), .num s)]
  | .step prs => [(("type"), .str ("Step")), (("prs"), .arr (prs.map MValue.num))]
  | .marker i => [(("type"), .str ("Marker")), (("id"), .int i)]

/-- Reads a msgpack array of floats (the `pcm` / `prs` payloads). -/
def asNums : List MValue → Option (List ℚ)
  | [] => some []
  | .num q :: rest => (asNums rest).map (fun l => q :: l)
  | _ => none

/-- Decoding, as performed by the receivers: dispatch on `data["type"]`
(stt_from_file_rust_server.py lines 36-54, stt_from_mic_rust_server.py
lines 105-122, tts_client.py lines 88-94) and read the named fields. -/
def decode (m : List (String × MValue)) : Option WireMessage :=
  match mapLookup m ("type") with
  | some (.str t) =>
      if t = ("Audio") then
        match mapLookup m ("pcm") with
        | some (.arr vs) => (asNums vs).map WireMessage.audio
        | _ => none
      else if t = ("Word") then
        match mapLookup m ("text"), mapLookup m ("start_time") with
        | some (.str w), some (.num s) => some (.word w s)
        | _, _ => none
      else if t = ("EndWord") then
        match mapLookup m ("stop_time") with
        | some (.num s) => some (.endWord s)
        | _ => none
      else if t = ("Step") then
        match mapLookup m ("prs") with
        | some (.arr vs) => (asNums vs).map WireMessage.step
        | _ => none
      else if t = ("Marker") then
        match mapLookup m ("id") with
        | some (.int i) => some (.marker i)
        | _ => none
      else none
  | _ => none

/-! ### File-client receiver (C5)

`receive_messages` of stt_from_file_rust_server.py lines 32-56, folded over
an already-decoded inbound message list.  A transcript entry models
`{"text": ..., "timestamp": [start, stop]}`. -/
structure TranscriptEntry where
  text : String
  startTime : ℚ
  stopTime : ℚ
deriving DecidableEq, Repr

/-- `transcript[-1]["timestamp"][1] = stop_time`, guarded in the source by
`len(transcript) > 0` (so the empty case leaves the list unchanged and,
unlike an unguarded `transcript[-1]`, cannot raise). -/
def setLastStop : List TranscriptEntry → ℚ → List TranscriptEntry
  | [], _ => []
  | [e], s => [{ e with stopTime := s }]
  | e :: e2 :: rest, s => e :: setLastStop (e2 :: rest) s

/-- One inbound message of the file receiver's loop body: `Step` is
skipped, `Word` appends an entry with `timestamp = [start, start]`,
`EndWord` rewrites the last entry's stop time when the list is non-empty. -/
def receiveStep (transcript : List TranscriptEntry) : WireMessage → List TranscriptEntry
  | .word t s => transcript ++ [⟨t, s, s⟩]
  | .endWord s => setLastStop transcript s
  | _ => transcript

/-- The receive loop: processes messages in order, stopping at `Marker`. -/
def receiveMessages (transcript : List TranscriptEntry) :
    List WireMessage → List TranscriptEntry
  | [] => transcript
  | m :: ms =>
      match m with
      | .marker _ => transcript
      | _ => receiveMessages (receiveStep transcript m) ms

/-! ### Mic-client VAD display (C6)

`receive_messages` of stt_from_mic_rust_server.py lines 95-124, restricted
to the `speech_started` flag and the pause-indicator prints.  `vadStep`
returns the updated flag and whether the indicator was printed on this
message. -/
def vadStep (showVad : Bool) (speechStarted : Bool) :
    WireMessage → Bool × Bool
  | .step prs =>
      if showVad = true ∧ (1 / 2 : ℚ) < prs.getD PAUSE_PREDICTION_HEAD_INDEX 0 ∧
          speechStarted = true then
        (false, true)
      else (speechStarted, false)
  | .word _ _ => (true, false)
  | _ => (speechStarted, false)

/-- The mic receive loop: threads the flag through the messages, stops at
`Marker`, and returns the final flag with the number of pause indicators
printed. -/
def vadRun (showVad : Bool) (speechStarted : Bool) : List WireMessage → Bool × ℕ
  | [] => (speechStarted, 0)
  | m :: ms =>
      match m with
      | .marker _ => (speechStarted, 0)
      | _ =>
          let r := vadStep showVad speechStarted m
          let rest := vadRun showVad r.1 ms
          (rest.1, (if r.2 then 1 else 0) + rest.2)

def isWordMsg : WireMessage → Bool
  | .word _ _ => true
  | _ => false

/-! ### Sender pacing (C4)

stt_from_file_rust_server.py lines 97-107.  `i` is the loop variable of
`range(0, len(audio_data), FRAME_SIZE)`: the sample offset of the block
just sent. -/
/-- `expected_send_time = start_time + (i + 1) / SAMPLE_RATE / rtf` (line 102). -/
def expectedSendTime (startTime rtf : ℚ) (i : ℕ) : ℚ :=
  startTime + ((i : ℚ) + 1) / (SAMPLE_RATE : ℚ) / rtf

/-- Modelled from the spec: the spec's wording of the pacing formula,
`expected_send_time = start_time + samples_sent_so_far / sample_rate /
rtf`, kept separate so it can be compared with the source formula
`expectedSendTime`. -/
def expectedSendTimeSpec (startTime rtf : ℚ) (samplesSent : ℕ) : ℚ :=
  startTime + (samplesSent : ℚ) / (SAMPLE_RATE : ℚ) / rtf

/-- The instant at which the loop resumes after the pacing sleep (lines
104-107): sleep until `expected` when ahead of schedule, else sleep one
millisecond. -/
def pacingResume (expected current : ℚ) : ℚ :=
  if current < expected then expected else current + 1 / 1000

/-! ### The Sender as an explicit machine (C1, C2, C8, C10)

`send_messages` of stt_from_file_rust_server.py lines 59-114 and of
stt_from_mic_rust_server.py lines 127-189, with the effects made explicit:

* `frames` collects the frames accepted by the websocket, in send order;
* the connection is modelled by `closeAt`: a send attempt raises
  `ConnectionClosed` exactly when `closeAt` many frames (or more) have
  already been delivered — `none` means the connection never closes;
* a single external cancellation is modelled by `pendingCancel`: `some k`
  makes the k-th subsequent unshielded await point raise `CancelledError`
  (consuming the request), `none` means no cancellation is pending;
* `asyncio.shield(...)` runs its argument with the cancellation check
  disabled (the shielded inner task is not cancelled by the outer
  cancellation), per the spec's cancellation-independent shutdown path. -/
inductive Outcome where
  | ok
  | connClosed
  | cancelled
deriving DecidableEq, Repr

structure SenderSt where
  frames : List WireMessage
  streamClosed : Bool
  pendingCancel : Option ℕ
deriving DecidableEq, Repr

/-- Cancellation delivery at an unshielded await point: fires when the
countdown reaches zero, consuming the pending request. -/
def checkCancel (sh : Bool) (p : Option ℕ) : Option ℕ × Bool :=
  if sh then (p, false)
  else
    match p with
    | some 0 => (none, true)
    | some (k + 1) => (some k, false)
    | none => (p, false)

def connIsClosed (closeAt : Option ℕ) (st : SenderSt) : Bool :=
  match closeAt with
  | none => false
  | some c => decide (c ≤ st.frames.length)

/-- The websocket delivering one frame, or raising `ConnectionClosed`. -/
def doSend (closeAt : Option ℕ) (f : WireMessage) (st : SenderSt) : SenderSt × Outcome :=
  if connIsClosed closeAt st then (st, .connClosed)
  else ({ st with frames := st.frames ++ [f] }, .ok)

/-- `await websocket.send(...)`: an await point followed by the send. -/
def sendFrame (closeAt : Option ℕ) (sh : Bool) (f : WireMessage) (st : SenderSt) :
    SenderSt × Outcome :=
  let r := checkCancel sh st.pendingCancel
  let st1 := { st with pendingCancel := r.1 }
  if r.2 = true then (st1, .cancelled) else doSend closeAt f st1

/-- An await point with no send (`asyncio.sleep`, `audio_queue.get`). -/
def sleepAwait (sh : Bool) (st : SenderSt) : SenderSt × Outcome :=
  let r := checkCancel sh st.pendingCancel
  ({ st with pendingCancel := r.1 }, if r.2 = true then .cancelled else .ok)

def silenceFrame : WireMessage := .audio SILENCE_SECOND

def markerFrame : WireMessage := .marker 0

/-- `for _ in range(n): await send_audio(SILENCE_SECOND)`. -/
def sendNSilence (closeAt : Option ℕ) (sh : Bool) : ℕ → SenderSt → SenderSt × Outcome
  | 0, st => (st, .ok)
  | n + 1, st =>
      match sendFrame closeAt sh silenceFrame st with
      | (st2, .ok) => sendNSilence closeAt sh n st2
      | r => r

/-- `with contextlib.suppress(websockets.ConnectionClosed): await
websocket.send(marker_msg)`. -/
def sendMarkerSuppressed (closeAt : Option ℕ) (sh : Bool) (st : SenderSt) :
    SenderSt × Outcome :=
  match sendFrame closeAt sh markerFrame st with
  | (st2, .connClosed) => (st2, .ok)
  | r => r

/-- `send_stream_end` (file client, lines 73-91): no-op when the trailer
flag is already set; otherwise 5 lead-out silence frames, the marker
(`ConnectionClosed` suppressed), 35 post-marker silence frames.
`ConnectionClosed` in a silence loop returns normally; `CancelledError`
clears the flag again (allowing a later shielded retry) and re-raises. -/
def sendStreamEnd (closeAt : Option ℕ) (sh : Bool) (st : SenderSt) : SenderSt × Outcome :=
  if st.streamClosed = true then (st, .ok)
  else
    let st1 := { st with streamClosed := true }
    match sendNSilence closeAt sh 5 st1 with
    | (st2, .ok) =>
        match sendMarkerSuppressed closeAt sh st2 with
        | (st3, .ok) =>
            match sendNSilence closeAt sh 35 st3 with
            | (st4, .ok) => (st4, .ok)
            | (st4, .connClosed) => (st4, .ok)
            | (st4, .cancelled) => ({ st4 with streamClosed := false }, .cancelled)
        | (st3, .connClosed) => (st3, .ok)
        | (st3, .cancelled) => ({ st3 with streamClosed := false }, .cancelled)
    | (st2, .connClosed) => (st2, .ok)
    | (st2, .cancelled) => ({ st2 with streamClosed := false }, .cancelled)

/-- The file client's `for i in range(0, len(audio_data), FRAME_SIZE)`
slicing: blocks of `FRAME_SIZE` samples, the last one possibly shorter.
Structured recursion on a fuel argument bounded by the list length. -/
def chunkListAux (n : ℕ) : ℕ → List ℚ → List (List ℚ)
  | 0, _ => []
  | _ + 1, [] => []
  | fuel + 1, x :: xs => ((x :: xs).take n) :: chunkListAux n fuel ((x :: xs).drop n)

def chunkAudio (audio : List ℚ) : List (List ℚ) :=
  chunkListAux FRAME_SIZE audio.length audio

/-- The file client's main send loop (lines 99-107): send each block, then
the pacing sleep — both are await points. -/
def sendLoop (closeAt : Option ℕ) : List (List ℚ) → SenderSt → SenderSt × Outcome
  | [], st => (st, .ok)
  | b :: bs, st =>
      match sendFrame closeAt false (.audio b) st with
      | (st2, .ok) =>
          match sleepAwait false st2 with
          | (st3, .ok) => sendLoop closeAt bs st3
          | r => r
      | r => r

/-- `send_messages` (file client, lines 93-114): lead-in silence frame
(outside the try block), the paced block loop, `send_stream_end`, with
`except asyncio.CancelledError: await asyncio.shield(send_stream_end());
return` and `finally: await asyncio.shield(send_stream_end())`.
The outcome is `.ok` for a normal return, `.connClosed` / `.cancelled`
when the corresponding exception propagates out of the coroutine. -/
def sendMessages (closeAt : Option ℕ) (pendingCancel : Option ℕ) (audio : List ℚ) :
    SenderSt × Outcome :=
  let st0 : SenderSt := ⟨[], false, pendingCancel⟩
  match sendFrame closeAt false silenceFrame st0 with
  | (st1, .ok) =>
      let body :=
        match sendLoop closeAt (chunkAudio audio) st1 with
        | (st2, .ok) => sendStreamEnd closeAt false st2
        | r => r
      match body with
      | (st2, .ok) => sendStreamEnd closeAt true st2
      | (st2, .cancelled) =>
          let r1 := sendStreamEnd closeAt true st2
          let r2 := sendStreamEnd closeAt true r1.1
          (r2.1, .ok)
      | (st2, .connClosed) =>
          let r := sendStreamEnd closeAt true st2
          (r.1, .connClosed)
  | r => r

/-- `finish_stream` (mic client, lines 147-160): like `send_stream_end`
but with no `CancelledError` arm — only `ConnectionClosed` is caught. -/
def finishStream (closeAt : Option ℕ) (sh : Bool) (st : SenderSt) : SenderSt × Outcome :=
  if st.streamClosed = true then (st, .ok)
  else
    let st1 := { st with streamClosed := true }
    match sendNSilence closeAt sh 5 st1 with
    | (st2, .ok) =>
        match sendMarkerSuppressed closeAt sh st2 with
        | (st3, .ok) =>
            match sendNSilence closeAt sh 35 st3 with
            | (st4, .ok) => (st4, .ok)
            | (st4, .connClosed) => (st4, .ok)
            | r => r
        | (st3, .connClosed) => (st3, .ok)
        | r => r
    | (st2, .connClosed) => (st2, .ok)
    | r => r

/-- The mic client's main send loop (lines 162-180): `await
audio_queue.get()` (an await point), break on the `None` sentinel, send the
chunk, break when the stop event is set. -/
def micSendLoop (closeAt : Option ℕ) (stopEvent : Bool) :
    List (Option (List ℚ)) → SenderSt → SenderSt × Outcome
  | [], st => (st, .ok)
  | item :: rest, st =>
      match sleepAwait false st with
      | (st1, .ok) =>
          match item with
          | none => (st1, .ok)
          | some chunk =>
              match sendFrame closeAt false (.audio chunk) st1 with
              | (st2, .ok) =>
                  if stopEvent = true then (st2, .ok)
                  else micSendLoop closeAt stopEvent rest st2
              | r => r
      | r => r

/-- `send_messages` (mic client, lines 127-189): the loop with
`except ConnectionClosed` logging and returning, `except CancelledError:
await asyncio.shield(finish_stream()); raise`, and `finally: await
asyncio.shield(finish_stream())`. -/
def micSendMessages (closeAt : Option ℕ) (pendingCancel : Option ℕ) (stopEvent : Bool)
    (queue : List (Option (List ℚ))) : SenderSt × Outcome :=
  let st0 : SenderSt := ⟨[], false, pendingCancel⟩
  match micSendLoop closeAt stopEvent queue st0 with
  | (st1, .ok) => finishStream closeAt true st1
  | (st1, .connClosed) => finishStream closeAt true st1
  | (st1, .cancelled) =>
      let r1 := finishStream closeAt true st1
      let r2 := finishStream closeAt true r1.1
      (r2.1, .cancelled)

/-- The full trailer handshake frame sequence. -/
def trailerFrames : List WireMessage :=
  List.replicate 5 silenceFrame ++ [markerFrame] ++ List.replicate 35 silenceFrame

/-! ### Session coordinator (C3, C7)

`stream_audio` of stt_from_file_rust_server.py lines 140-176 together with
`_shutdown_session` / `_close_websocket` (lines 117-137).  The two task
results are the values `asyncio.gather(..., return_exceptions=True)`
hands back; `externalCancel` records whether the await on the shielded
gather itself was cancelled.  Exceptions are modelled by opaque codes. -/
structure Socket where
  closed : Bool
  closeFrames : List (ℕ × String)
deriving DecidableEq, Repr

/-- `_close_websocket`: skipped entirely when the socket is already
closed; otherwise `close(code=1000, reason=WS_CLOSE_REASON)` performs the
close handshake once and the socket ends closed. -/
def closeWebsocket (s : Socket) : Socket :=
  if s.closed = true then s
  else { closed := true, closeFrames := s.closeFrames ++ [(1000, WS_CLOSE_REASON)] }

inductive SendTaskRes where
  | okSend
  | exnSend (e : ℕ)
  | cancelledSend
deriving DecidableEq, Repr

inductive RecvTaskRes where
  | okRecv (t : List TranscriptEntry)
  | exnRecv (e : ℕ)
  | cancelledRecv
deriving DecidableEq, Repr

inductive StreamOutcome where
  | returned (t : List TranscriptEntry)
  | raised (e : ℕ)
  | raisedCancelled
deriving DecidableEq, Repr

def SendTaskRes.isCancelled : SendTaskRes → Bool
  | .cancelledSend => true
  | _ => false

def RecvTaskRes.isCancelled : RecvTaskRes → Bool
  | .cancelledRecv => true
  | _ => false

/-- The result dispatch of `stream_audio` (lines 163-176): a task result
that is a `CancelledError` instance sets the cancelled flag, a task result
that is any other exception is re-raised (send checked first), a set
cancelled flag raises `CancelledError`, and otherwise the transcript is
returned. -/
def streamAudioOutcome (externalCancel : Bool) (sendResult : SendTaskRes)
    (recvResult : RecvTaskRes) : StreamOutcome :=
  let c1 := externalCancel || sendResult.isCancelled
  match sendResult with
  | .exnSend e => .raised e
  | _ =>
      let c2 := c1 || recvResult.isCancelled
      match recvResult with
      | .exnRecv e => .raised e
      | _ =>
          if c2 = true then .raisedCancelled
          else
            match recvResult with
            | .okRecv t => .returned t
            | _ => .raisedCancelled

/-- `stream_audio` with its `finally: await asyncio.shield(
_shutdown_session(...))`: the shutdown (task cancellation plus the single
close handshake) runs on every path before the result dispatch decides
what to raise or return. -/
def streamAudio (externalCancel : Bool) (sendResult : SendTaskRes)
    (recvResult : RecvTaskRes) (sock : Socket) : Socket × StreamOutcome :=
  (closeWebsocket sock, streamAudioOutcome externalCancel sendResult recvResult)

/-! ### Lemmas and claim theorems -/

theorem asNums_map_num (l : List ℚ) : asNums (l.map MValue.num) = some l := by
  induction l with
  | nil => rfl
  | cons q rest ih => simp [asNums, ih]

theorem setLastStop_append (t : List TranscriptEntry) (e : TranscriptEntry) (s : ℚ) :
    setLastStop (t ++ [e]) s = t ++ [{ e with stopTime := s }] := by
  induction t with
  | nil => rfl
  | cons a rest ih =>
      cases rest with
      | nil => rfl
      | cons b rest2 => simpa [setLastStop] using ih

theorem vadRun_no_word_inactive (ms : List WireMessage)
    (h : ∀ m ∈ ms, isWordMsg m = false) :
    vadRun true false ms = ((vadRun true false ms).1, 0) ∧
      (vadRun true false ms).2 = 0 := by
  induction ms with
  | nil => simp [vadRun]
  | cons m rest ih =>
      have hm : isWordMsg m = false := h m (by simp)
      have hrest := ih (fun x hx => h x (by simp [hx]))
      cases m with
      | marker i => simp [vadRun]
      | word t s => simp [isWordMsg] at hm
      | audio pcm => simp [vadRun, vadStep, hrest.2]
      | endWord s => simp [vadRun, vadStep, hrest.2]
      | step prs =>
          have : vadStep true false (.step prs) = (false, false) := by
            simp [vadStep]
          simp [vadRun, this, hrest.2]

/-! ### Basic facts about the sender operations -/
theorem sendFrame_streamClosed (closeAt : Option ℕ) (sh : Bool) (f : WireMessage)
    (st : SenderSt) : ((sendFrame closeAt sh f st).1).streamClosed = st.streamClosed := by
  unfold sendFrame doSend
  by_cases h : (checkCancel sh st.pendingCancel).2 = true
  · simp [h]
  · simp only [h, if_false, Bool.false_eq_true]
    split <;> simp

theorem sendNSilence_streamClosed (closeAt : Option ℕ) (sh : Bool) (n : ℕ) (st : SenderSt) :
    ((sendNSilence closeAt sh n st).1).streamClosed = st.streamClosed := by
  induction n generalizing st with
  | zero => rfl
  | succ n ih =>
      unfold sendNSilence
      rcases hsf : sendFrame closeAt sh silenceFrame st with ⟨st2, o⟩
      have hfl : st2.streamClosed = st.streamClosed := by
        have := sendFrame_streamClosed closeAt sh silenceFrame st
        rw [hsf] at this; exact this
      cases o <;> simp [hfl, ih st2]

theorem sendMarkerSuppressed_streamClosed (closeAt : Option ℕ) (sh : Bool) (st : SenderSt) :
    ((sendMarkerSuppressed closeAt sh st).1).streamClosed = st.streamClosed := by
  unfold sendMarkerSuppressed
  rcases hsf : sendFrame closeAt sh markerFrame st with ⟨st2, o⟩
  have hfl : st2.streamClosed = st.streamClosed := by
    have := sendFrame_streamClosed closeAt sh markerFrame st
    rw [hsf] at this; exact this
  cases o <;> simp [hfl]

/-- A trailer call that returned normally leaves the trailer-sent flag set. -/
theorem sendStreamEnd_ok_flag (closeAt : Option ℕ) (sh : Bool) (st : SenderSt)
    (h : (sendStreamEnd closeAt sh st).2 = Outcome.ok) :
    ((sendStreamEnd closeAt sh st).1).streamClosed = true := by
  by_cases hfl : st.streamClosed = true
  · simp [sendStreamEnd, hfl]
  · unfold sendStreamEnd at h ⊢
    simp only [hfl, if_false, Bool.false_eq_true] at h ⊢
    rcases h5 : sendNSilence closeAt sh 5 { st with streamClosed := true } with ⟨st2, o5⟩
    have hfl2 : st2.streamClosed = true := by
      have := sendNSilence_streamClosed closeAt sh 5 { st with streamClosed := true }
      rw [h5] at this; exact this
    simp only [h5] at h ⊢
    cases o5 with
    | ok =>
        rcases hm : sendMarkerSuppressed closeAt sh st2 with ⟨st3, om⟩
        have hfl3 : st3.streamClosed = true := by
          have := sendMarkerSuppressed_streamClosed closeAt sh st2
          rw [hm] at this; rw [this]; exact hfl2
        simp only [hm] at h ⊢
        cases om with
        | ok =>
            rcases h35 : sendNSilence closeAt sh 35 st3 with ⟨st4, o35⟩
            have hfl4 : st4.streamClosed = true := by
              have := sendNSilence_streamClosed closeAt sh 35 st3
              rw [h35] at this; rw [this]; exact hfl3
            simp only [h35] at h ⊢
            cases o35 <;> simp_all
        | connClosed => simpa using hfl3
        | cancelled => simp at h
    | connClosed => simpa using hfl2
    | cancelled => simp at h

/-- Re-invoking the trailer after the flag is set is a no-op. -/
theorem sendStreamEnd_sent (closeAt : Option ℕ) (sh : Bool) (st : SenderSt)
    (h : st.streamClosed = true) : sendStreamEnd closeAt sh st = (st, Outcome.ok) := by
  simp [sendStreamEnd, h]

theorem finishStream_sent (closeAt : Option ℕ) (sh : Bool) (st : SenderSt)
    (h : st.streamClosed = true) : finishStream closeAt sh st = (st, Outcome.ok) := by
  simp [finishStream, h]

/-! ### Characterization of runs over a never-closing connection

Over `closeAt = none` every send either succeeds (appending its frame) or
is interrupted by the single pending cancellation; a fired cancellation
leaves `pendingCancel = none`, so shielded retries afterwards run
unimpeded. -/
theorem sendFrame_none (sh : Bool) (f : WireMessage) (st st2 : SenderSt) (o : Outcome)
    (h : sendFrame none sh f st = (st2, o)) :
    (o = Outcome.ok ∧ ∃ p, st2 = ⟨st.frames ++ [f], st.streamClosed, p⟩) ∨
      (o = Outcome.cancelled ∧ st2.pendingCancel = none ∧
        st2.streamClosed = st.streamClosed ∧ st2.frames = st.frames) := by
  cases sh with
  | true =>
      left
      simp [sendFrame, checkCancel, doSend, connIsClosed] at h
      exact ⟨h.2.symm, st.pendingCancel, h.1.symm⟩
  | false =>
      rcases hp : st.pendingCancel with _ | k
      · left
        simp [sendFrame, checkCancel, doSend, connIsClosed, hp] at h
        exact ⟨h.2.symm, none, h.1.symm⟩
      · cases k with
        | zero =>
            right
            simp [sendFrame, checkCancel, doSend, connIsClosed, hp] at h
            rw [← h.1]
            exact ⟨h.2.symm, rfl, rfl, rfl⟩
        | succ k2 =>
            left
            simp [sendFrame, checkCancel, doSend, connIsClosed, hp] at h
            exact ⟨h.2.symm, some k2, h.1.symm⟩

theorem sleepAwait_unshielded (st st2 : SenderSt) (o : Outcome)
    (h : sleepAwait false st = (st2, o)) :
    (o = Outcome.ok ∧ ∃ p, st2 = ⟨st.frames, st.streamClosed, p⟩) ∨
      (o = Outcome.cancelled ∧ st2.pendingCancel = none ∧
        st2.streamClosed = st.streamClosed ∧ st2.frames = st.frames) := by
  rcases hp : st.pendingCancel with _ | k
  · left
    simp [sleepAwait, checkCancel, hp] at h
    exact ⟨h.2.symm, none, h.1.symm⟩
  · cases k with
    | zero =>
        right
        simp [sleepAwait, checkCancel, hp] at h
        rw [← h.1]
        exact ⟨h.2.symm, rfl, rfl, rfl⟩
    | succ k2 =>
        left
        simp [sleepAwait, checkCancel, hp] at h
        exact ⟨h.2.symm, some k2, h.1.symm⟩

theorem sendNSilence_none (sh : Bool) (n : ℕ) (st st2 : SenderSt) (o : Outcome)
    (h : sendNSilence none sh n st = (st2, o)) :
    (o = Outcome.ok ∧
        ∃ p, st2 = ⟨st.frames ++ List.replicate n silenceFrame, st.streamClosed, p⟩) ∨
      (o = Outcome.cancelled ∧ st2.pendingCancel = none ∧
        st2.streamClosed = st.streamClosed) := by
  induction n generalizing st with
  | zero =>
      unfold sendNSilence at h
      injection h with h1 h2
      subst h1
      left
      exact ⟨h2.symm, st.pendingCancel, by cases st; simp⟩
  | succ n ih =>
      unfold sendNSilence at h
      rcases hsf : sendFrame none sh silenceFrame st with ⟨stf, of⟩
      rw [hsf] at h
      rcases sendFrame_none sh silenceFrame st stf of hsf with ⟨ho, p, hstf⟩ | ⟨ho, hp, hflp, hfr⟩
      · subst ho
        dsimp only at h
        rcases ih stf h with ⟨ho2, p2, hst2⟩ | ⟨ho2, hp2, hfl2⟩
        · left
          refine ⟨ho2, p2, ?_⟩
          rw [hst2, hstf]
          simp [List.replicate_succ]
        · right
          refine ⟨ho2, hp2, ?_⟩
          rw [hfl2, hstf]
      · subst ho
        dsimp only at h
        injection h with h1 h2
        subst h1
        right
        exact ⟨h2.symm, hp, hflp⟩

theorem sendMarkerSuppressed_none (sh : Bool) (st st2 : SenderSt) (o : Outcome)
    (h : sendMarkerSuppressed none sh st = (st2, o)) :
    (o = Outcome.ok ∧ ∃ p, st2 = ⟨st.frames ++ [markerFrame], st.streamClosed, p⟩) ∨
      (o = Outcome.cancelled ∧ st2.pendingCancel = none ∧
        st2.streamClosed = st.streamClosed) := by
  unfold sendMarkerSuppressed at h
  rcases hsf : sendFrame none sh markerFrame st with ⟨stf, of⟩
  rw [hsf] at h
  rcases sendFrame_none sh markerFrame st stf of hsf with ⟨ho, p, hstf⟩ | ⟨ho, hp, hflp, hfr⟩
  · subst ho
    dsimp only at h
    injection h with h1 h2
    subst h1
    left
    exact ⟨h2.symm, p, hstf⟩
  · subst ho
    dsimp only at h
    injection h with h1 h2
    subst h1
    right
    exact ⟨h2.symm, hp, hflp⟩

theorem sendStreamEnd_none_unsent (sh : Bool) (st st2 : SenderSt) (o : Outcome)
    (hfl : st.streamClosed = false)
    (h : sendStreamEnd none sh st = (st2, o)) :
    (o = Outcome.ok ∧ ∃ p, st2 = ⟨st.frames ++ trailerFrames, true, p⟩) ∨
      (o = Outcome.cancelled ∧ st2.pendingCancel = none ∧ st2.streamClosed = false) := by
  unfold sendStreamEnd at h
  rw [hfl] at h
  simp only [Bool.false_eq_true, if_false] at h
  rcases h5 : sendNSilence none sh 5 { st with streamClosed := true } with ⟨sta, oa⟩
  rw [h5] at h
  rcases sendNSilence_none sh 5 _ sta oa h5 with ⟨ho5, p5, hsta⟩ | ⟨ho5, hp5, hfl5⟩
  · subst ho5
    dsimp only at h
    rcases hm : sendMarkerSuppressed none sh sta with ⟨stb, ob⟩
    rw [hm] at h
    rcases sendMarkerSuppressed_none sh sta stb ob hm with ⟨hom, pm, hstb⟩ | ⟨hom, hpm, hflm⟩
    · subst hom
      dsimp only at h
      rcases h35 : sendNSilence none sh 35 stb with ⟨stc, oc⟩
      rw [h35] at h
      rcases sendNSilence_none sh 35 stb stc oc h35 with ⟨ho35, p35, hstc⟩ | ⟨ho35, hp35, hfl35⟩
      · subst ho35
        dsimp only at h
        injection h with h1 h2
        subst h1
        left
        refine ⟨h2.symm, p35, ?_⟩
        rw [hstc, hstb, hsta]
        simp [trailerFrames, List.append_assoc]
      · subst ho35
        dsimp only at h
        injection h with h1 h2
        subst h1
        right
        exact ⟨h2.symm, by simp [hp35], by simp⟩
    · subst hom
      dsimp only at h
      injection h with h1 h2
      subst h1
      right
      exact ⟨h2.symm, by simp [hpm], by simp⟩
  · subst ho5
    dsimp only at h
    injection h with h1 h2
    subst h1
    right
    exact ⟨h2.symm, by simp [hp5], by simp⟩

theorem sendLoop_none (blocks : List (List ℚ)) (st st2 : SenderSt) (o : Outcome)
    (h : sendLoop none blocks st = (st2, o)) :
    (o = Outcome.ok ∧
        ∃ p, st2 = ⟨st.frames ++ blocks.map WireMessage.audio, st.streamClosed, p⟩) ∨
      (o = Outcome.cancelled ∧ st2.pendingCancel = none ∧
        st2.streamClosed = st.streamClosed) := by
  induction blocks generalizing st with
  | nil =>
      unfold sendLoop at h
      injection h with h1 h2
      subst h1
      left
      exact ⟨h2.symm, st.pendingCancel, by cases st; simp⟩
  | cons b bs ih =>
      unfold sendLoop at h
      rcases hsf : sendFrame none false (.audio b) st with ⟨stf, of⟩
      rw [hsf] at h
      rcases sendFrame_none false (.audio b) st stf of hsf with ⟨ho, p, hstf⟩ | ⟨ho, hp, hflp, hfr⟩
      · subst ho
        dsimp only at h
        rcases hsl : sleepAwait false stf with ⟨sts, os⟩
        rw [hsl] at h
        rcases sleepAwait_unshielded stf sts os hsl with ⟨ho2, p2, hsts⟩ | ⟨ho2, hp2, hfl2, _⟩
        · subst ho2
          dsimp only at h
          rcases ih sts h with ⟨ho3, p3, hst2⟩ | ⟨ho3, hp3, hfl3⟩
          · left
            refine ⟨ho3, p3, ?_⟩
            rw [hst2, hsts, hstf]
            simp
          · right
            refine ⟨ho3, hp3, ?_⟩
            rw [hfl3, hsts, hstf]
        · subst ho2
          dsimp only at h
          injection h with h1 h2
          subst h1
          right
          refine ⟨h2.symm, hp2, ?_⟩
          rw [hfl2, hstf]
      · subst ho
        dsimp only at h
        injection h with h1 h2
        subst h1
        right
        exact ⟨h2.symm, hp, hflp⟩

/-! ### Runs with no pending cancellation

With `pendingCancel = none` no await point can raise `CancelledError`, so
the only possible outcomes are `.ok` and `.connClosed`; in particular the
trailer handshake always returns normally, whatever the connection does. -/
theorem sendFrame_no_pending (closeAt : Option ℕ) (sh : Bool) (f : WireMessage)
    (st : SenderSt) (hp : st.pendingCancel = none) :
    (sendFrame closeAt sh f st).2 ≠ Outcome.cancelled ∧
      ((sendFrame closeAt sh f st).1).pendingCancel = none := by
  have hcc : checkCancel sh st.pendingCancel = (none, false) := by
    cases sh <;> simp [checkCancel, hp]
  by_cases hc : connIsClosed closeAt { st with pendingCancel := none } = true
  · simp [sendFrame, doSend, hcc, hc]
  · simp [sendFrame, doSend, hcc, hc]

theorem sleepAwait_no_pending (sh : Bool) (st : SenderSt)
    (hp : st.pendingCancel = none) :
    (sleepAwait sh st).2 ≠ Outcome.cancelled ∧
      ((sleepAwait sh st).1).pendingCancel = none := by
  have hcc : checkCancel sh st.pendingCancel = (none, false) := by
    cases sh <;> simp [checkCancel, hp]
  simp [sleepAwait, hcc]

theorem sendNSilence_no_pending (closeAt : Option ℕ) (sh : Bool) (n : ℕ)
    (st : SenderSt) (hp : st.pendingCancel = none) :
    (sendNSilence closeAt sh n st).2 ≠ Outcome.cancelled ∧
      ((sendNSilence closeAt sh n st).1).pendingCancel = none := by
  induction n generalizing st with
  | zero => exact ⟨by simp [sendNSilence], by simpa [sendNSilence] using hp⟩
  | succ n ih =>
      rcases hsf : sendFrame closeAt sh silenceFrame st with ⟨stf, of⟩
      have hf := sendFrame_no_pending closeAt sh silenceFrame st hp
      rw [hsf] at hf
      unfold sendNSilence
      rw [hsf]
      cases of with
      | ok => exact ih stf (by simpa using hf.2)
      | connClosed => exact ⟨by simp, by simpa using hf.2⟩
      | cancelled => exact absurd rfl hf.1

theorem sendMarkerSuppressed_no_pending (closeAt : Option ℕ) (sh : Bool)
    (st : SenderSt) (hp : st.pendingCancel = none) :
    (sendMarkerSuppressed closeAt sh st).2 ≠ Outcome.cancelled ∧
      ((sendMarkerSuppressed closeAt sh st).1).pendingCancel = none := by
  rcases hsf : sendFrame closeAt sh markerFrame st with ⟨stf, of⟩
  have hf := sendFrame_no_pending closeAt sh markerFrame st hp
  rw [hsf] at hf
  unfold sendMarkerSuppressed
  rw [hsf]
  cases of with
  | ok => exact ⟨by simp, by simpa using hf.2⟩
  | connClosed => exact ⟨by simp, by simpa using hf.2⟩
  | cancelled => exact absurd rfl hf.1

theorem sendStreamEnd_no_pending (closeAt : Option ℕ) (sh : Bool) (st : SenderSt)
    (hp : st.pendingCancel = none) :
    (sendStreamEnd closeAt sh st).2 = Outcome.ok ∧
      ((sendStreamEnd closeAt sh st).1).pendingCancel = none := by
  by_cases hfl : st.streamClosed = true
  · rw [sendStreamEnd_sent closeAt sh st hfl]
    exact ⟨rfl, hp⟩
  · unfold sendStreamEnd
    simp only [hfl, Bool.false_eq_true, if_false]
    rcases h5 : sendNSilence closeAt sh 5 { st with streamClosed := true } with ⟨sta, oa⟩
    have ha := sendNSilence_no_pending closeAt sh 5 { st with streamClosed := true }
      (by simpa using hp)
    rw [h5] at ha
    cases oa with
    | cancelled => exact absurd rfl ha.1
    | connClosed => exact ⟨by simp, by simpa using ha.2⟩
    | ok =>
        rcases hm : sendMarkerSuppressed closeAt sh sta with ⟨stb, ob⟩
        have hb := sendMarkerSuppressed_no_pending closeAt sh sta (by simpa using ha.2)
        rw [hm] at hb
        dsimp only
        rw [hm]
        cases ob with
        | cancelled => exact absurd rfl hb.1
        | connClosed => exact ⟨by simp, by simpa using hb.2⟩
        | ok =>
            rcases h35 : sendNSilence closeAt sh 35 stb with ⟨stc, oc⟩
            have hc := sendNSilence_no_pending closeAt sh 35 stb (by simpa using hb.2)
            rw [h35] at hc
            dsimp only
            rw [h35]
            cases oc with
            | cancelled => exact absurd rfl hc.1
            | connClosed => exact ⟨by simp, by simpa using hc.2⟩
            | ok => exact ⟨by simp, by simpa using hc.2⟩

theorem finishStream_no_pending (closeAt : Option ℕ) (sh : Bool) (st : SenderSt)
    (hp : st.pendingCancel = none) :
    (finishStream closeAt sh st).2 = Outcome.ok ∧
      ((finishStream closeAt sh st).1).pendingCancel = none := by
  by_cases hfl : st.streamClosed = true
  · rw [finishStream_sent closeAt sh st hfl]
    exact ⟨rfl, hp⟩
  · unfold finishStream
    simp only [hfl, Bool.false_eq_true, if_false]
    rcases h5 : sendNSilence closeAt sh 5 { st with streamClosed := true } with ⟨sta, oa⟩
    have ha := sendNSilence_no_pending closeAt sh 5 { st with streamClosed := true }
      (by simpa using hp)
    rw [h5] at ha
    cases oa with
    | cancelled => exact absurd rfl ha.1
    | connClosed => exact ⟨by simp, by simpa using ha.2⟩
    | ok =>
        rcases hm : sendMarkerSuppressed closeAt sh sta with ⟨stb, ob⟩
        have hb := sendMarkerSuppressed_no_pending closeAt sh sta (by simpa using ha.2)
        rw [hm] at hb
        dsimp only
        rw [hm]
        cases ob with
        | cancelled => exact absurd rfl hb.1
        | connClosed => exact ⟨by simp, by simpa using hb.2⟩
        | ok =>
            rcases h35 : sendNSilence closeAt sh 35 stb with ⟨stc, oc⟩
            have hc := sendNSilence_no_pending closeAt sh 35 stb (by simpa using hb.2)
            rw [h35] at hc
            dsimp only
            rw [h35]
            cases oc with
            | cancelled => exact absurd rfl hc.1
            | connClosed => exact ⟨by simp, by simpa using hc.2⟩
            | ok => exact ⟨by simp, by simpa using hc.2⟩

theorem sendLoop_no_pending (closeAt : Option ℕ) (blocks : List (List ℚ))
    (st : SenderSt) (hp : st.pendingCancel = none) :
    (sendLoop closeAt blocks st).2 ≠ Outcome.cancelled ∧
      ((sendLoop closeAt blocks st).1).pendingCancel = none := by
  induction blocks generalizing st with
  | nil => exact ⟨by simp [sendLoop], by simpa [sendLoop] using hp⟩
  | cons b bs ih =>
      rcases hsf : sendFrame closeAt false (.audio b) st with ⟨stf, of⟩
      have hf := sendFrame_no_pending closeAt false (.audio b) st hp
      rw [hsf] at hf
      unfold sendLoop
      rw [hsf]
      cases of with
      | cancelled => exact absurd rfl hf.1
      | connClosed => exact ⟨by simp, by simpa using hf.2⟩
      | ok =>
          rcases hsl : sleepAwait false stf with ⟨sts, os⟩
          have hs := sleepAwait_no_pending false stf (by simpa using hf.2)
          rw [hsl] at hs
          dsimp only
          rw [hsl]
          cases os with
          | cancelled => exact absurd rfl hs.1
          | connClosed => exact ⟨by simp, by simpa using hs.2⟩
          | ok => exact ih sts (by simpa using hs.2)

theorem micSendLoop_no_pending (closeAt : Option ℕ) (stopEvent : Bool)
    (queue : List (Option (List ℚ))) (st : SenderSt) (hp : st.pendingCancel = none) :
    (micSendLoop closeAt stopEvent queue st).2 ≠ Outcome.cancelled ∧
      ((micSendLoop closeAt stopEvent queue st).1).pendingCancel = none := by
  induction queue generalizing st with
  | nil => exact ⟨by simp [micSendLoop], by simpa [micSendLoop] using hp⟩
  | cons item rest ih =>
      rcases hsl : sleepAwait false st with ⟨st1, o1⟩
      have hs := sleepAwait_no_pending false st hp
      rw [hsl] at hs
      unfold micSendLoop
      rw [hsl]
      cases o1 with
      | cancelled => exact absurd rfl hs.1
      | connClosed => exact ⟨by simp, by simpa using hs.2⟩
      | ok =>
          cases item with
          | none => exact ⟨by simp, by simpa using hs.2⟩
          | some chunk =>
              rcases hsf : sendFrame closeAt false (.audio chunk) st1 with ⟨st2, o2⟩
              have hf := sendFrame_no_pending closeAt false (.audio chunk) st1
                (by simpa using hs.2)
              rw [hsf] at hf
              dsimp only
              rw [hsf]
              cases o2 with
              | cancelled => exact absurd rfl hf.1
              | connClosed => exact ⟨by simp, by simpa using hf.2⟩
              | ok =>
                  cases stopEvent with
                  | true => exact ⟨by simp, by simpa using hf.2⟩
                  | false =>
                      have := ih st2 (by simpa using hf.2)
                      simpa using this

/-- The mic sender never lets `ConnectionClosed` escape: whatever the
connection does, with no cancellation pending it returns normally. -/
theorem micSendMessages_ok (closeAt : Option ℕ) (stopEvent : Bool)
    (queue : List (Option (List ℚ))) :
    (micSendMessages closeAt none stopEvent queue).2 = Outcome.ok := by
  unfold micSendMessages
  dsimp only
  rcases hl : micSendLoop closeAt stopEvent queue ⟨[], false, none⟩ with ⟨st1, o1⟩
  have hq := micSendLoop_no_pending closeAt stopEvent queue ⟨[], false, none⟩ rfl
  rw [hl] at hq
  cases o1 with
  | cancelled => exact absurd rfl hq.1
  | connClosed =>
      have h2 := finishStream_no_pending closeAt true st1 (by simpa using hq.2)
      simpa using h2.1
  | ok =>
      have h2 := finishStream_no_pending closeAt true st1 (by simpa using hq.2)
      simpa using h2.1

/-- A fault-free file-client session (connection never closes, no
cancellation): the lead-in silence frame, every audio block in order, then
the full trailer, with the trailer-sent flag left set. -/
theorem sendMessages_no_fault (audio : List ℚ) :
    sendMessages none none audio =
      (⟨silenceFrame :: ((chunkAudio audio).map WireMessage.audio ++ trailerFrames),
        true, none⟩, Outcome.ok) := by
  have h1 : sendFrame none false silenceFrame ⟨[], false, none⟩ =
      ((⟨[silenceFrame], false, none⟩ : SenderSt), Outcome.ok) := rfl
  unfold sendMessages
  dsimp only
  rw [h1]
  dsimp only
  rcases hl : sendLoop none (chunkAudio audio) ⟨[silenceFrame], false, none⟩ with ⟨st2, o2⟩
  have hnp := sendLoop_no_pending none (chunkAudio audio) ⟨[silenceFrame], false, none⟩ rfl
  rw [hl] at hnp
  rcases sendLoop_none (chunkAudio audio) ⟨[silenceFrame], false, none⟩ st2 o2 hl with
    ⟨ho2, p2, hst2⟩ | ⟨ho2, _, _⟩
  · subst ho2
    subst hst2
    have hp2 : p2 = none := by simpa using hnp.2
    subst hp2
    dsimp only
    rcases hs : sendStreamEnd none false
        ⟨[silenceFrame] ++ (chunkAudio audio).map WireMessage.audio, false, none⟩
      with ⟨st3, o3⟩
    have hse := sendStreamEnd_no_pending none false
      ⟨[silenceFrame] ++ (chunkAudio audio).map WireMessage.audio, false, none⟩ rfl
    rw [hs] at hse
    rcases sendStreamEnd_none_unsent false
        ⟨[silenceFrame] ++ (chunkAudio audio).map WireMessage.audio, false, none⟩
        st3 o3 rfl hs with ⟨ho3, p3, hst3⟩ | ⟨ho3, _, _⟩
    · subst ho3
      subst hst3
      have hp3 : p3 = none := by simpa using hse.2
      subst hp3
      dsimp only
      rw [sendStreamEnd_sent none true _ rfl]
      simp
    · rw [ho3] at hse
      simp at hse
  · exact absurd ho2 (by simpa using hnp.1)

/-- A cancellation delivered at any await point from the first audio block
onwards still yields a normal return whose frame trace ends with the
complete trailer handshake. -/
theorem sendMessages_cancel_trailer (audio : List ℚ) (j : ℕ) :
    (sendMessages none (some (j + 1)) audio).2 = Outcome.ok ∧
      ∃ pre, ((sendMessages none (some (j + 1)) audio).1).frames =
        pre ++ trailerFrames := by
  have h1 : sendFrame none false silenceFrame ⟨[], false, some (j + 1)⟩ =
      ((⟨[silenceFrame], false, some j⟩ : SenderSt), Outcome.ok) := rfl
  unfold sendMessages
  dsimp only
  rw [h1]
  dsimp only
  rcases hl : sendLoop none (chunkAudio audio) ⟨[silenceFrame], false, some j⟩ with ⟨st2, o2⟩
  rcases sendLoop_none (chunkAudio audio) ⟨[silenceFrame], false, some j⟩ st2 o2 hl with
    ⟨ho2, p2, hst2⟩ | ⟨ho2, hp2, hfl2⟩
  · subst ho2
    subst hst2
    dsimp only
    rcases hs : sendStreamEnd none false
        ⟨[silenceFrame] ++ (chunkAudio audio).map WireMessage.audio, false, p2⟩
      with ⟨st3, o3⟩
    rcases sendStreamEnd_none_unsent false
        ⟨[silenceFrame] ++ (chunkAudio audio).map WireMessage.audio, false, p2⟩
        st3 o3 rfl hs with ⟨ho3, p3, hst3⟩ | ⟨ho3, hp3, hfl3⟩
    · subst ho3
      subst hst3
      dsimp only
      rw [sendStreamEnd_sent none true _ rfl]
      exact ⟨rfl, _, rfl⟩
    · subst ho3
      dsimp only
      rcases hr1 : sendStreamEnd none true st3 with ⟨st4, o4⟩
      have hnp4 := sendStreamEnd_no_pending none true st3 hp3
      rw [hr1] at hnp4
      rcases sendStreamEnd_none_unsent true st3 st4 o4 hfl3 hr1 with
        ⟨ho4, p4, hst4⟩ | ⟨ho4, _, _⟩
      · subst hst4
        rw [sendStreamEnd_sent none true _ rfl]
        exact ⟨rfl, _, rfl⟩
      · rw [ho4] at hnp4
        simp at hnp4
  · subst ho2
    dsimp only
    rcases hr1 : sendStreamEnd none true st2 with ⟨st4, o4⟩
    have hnp4 := sendStreamEnd_no_pending none true st2 hp2
    rw [hr1] at hnp4
    rcases sendStreamEnd_none_unsent true st2 st4 o4 hfl2 hr1 with
      ⟨ho4, p4, hst4⟩ | ⟨ho4, _, _⟩
    · subst hst4
      rw [sendStreamEnd_sent none true _ rfl]
      exact ⟨rfl, _, rfl⟩
    · rw [ho4] at hnp4
      simp at hnp4

/-! ### Chunking facts (C10) -/
theorem chunkListAux_nil (n fuel : ℕ) : chunkListAux n fuel [] = [] := by
  cases fuel <;> rfl

theorem chunkListAux_join (n : ℕ) (hn : 0 < n) (fuel : ℕ) (xs : List ℚ)
    (hf : xs.length ≤ fuel) : (chunkListAux n fuel xs).flatten = xs := by
  induction fuel generalizing xs with
  | zero =>
      have : xs = [] := List.length_eq_zero.mp (Nat.le_zero.mp hf)
      subst this
      rfl
  | succ fuel ih =>
      cases xs with
      | nil => rfl
      | cons x rest =>
          have hlen : ((x :: rest).drop n).length ≤ fuel := by
            simp only [List.length_drop]
            omega
          calc (chunkListAux n (fuel + 1) (x :: rest)).flatten
              = (x :: rest).take n ++ (chunkListAux n fuel ((x :: rest).drop n)).flatten := by
                rfl
            _ = (x :: rest).take n ++ (x :: rest).drop n := by rw [ih _ hlen]
            _ = x :: rest := List.take_append_drop n (x :: rest)

theorem chunkListAux_mem_length (n : ℕ) (hn : 0 < n) (fuel : ℕ) (xs : List ℚ) :
    ∀ b ∈ chunkListAux n fuel xs, 0 < b.length ∧ b.length ≤ n := by
  induction fuel generalizing xs with
  | zero => intro b hb; simp [chunkListAux] at hb
  | succ fuel ih =>
      intro b hb
      cases xs with
      | nil => simp [chunkListAux] at hb
      | cons x rest =>
          rcases List.mem_cons.mp hb with hb1 | hb2
          · subst hb1
            constructor
            · simp only [List.length_take, List.length_cons]
              omega
            · simp
          · exact ih _ b hb2

theorem chunkListAux_dropLast_length (n : ℕ) (fuel : ℕ) (xs : List ℚ) :
    ∀ b ∈ (chunkListAux n fuel xs).dropLast, b.length = n := by
  induction fuel generalizing xs with
  | zero => intro b hb; simp [chunkListAux] at hb
  | succ fuel ih =>
      intro b hb
      cases xs with
      | nil => simp [chunkListAux] at hb
      | cons x rest =>
          by_cases hr : chunkListAux n fuel ((x :: rest).drop n) = []
          · rw [show chunkListAux n (fuel + 1) (x :: rest)
                = (x :: rest).take n :: chunkListAux n fuel ((x :: rest).drop n) from rfl,
              hr] at hb
            simp at hb
          · rw [show chunkListAux n (fuel + 1) (x :: rest)
                = (x :: rest).take n :: chunkListAux n fuel ((x :: rest).drop n) from rfl,
              List.dropLast_cons_of_ne_nil hr] at hb
            rcases List.mem_cons.mp hb with hb1 | hb2
            · subst hb1
              have hd : (x :: rest).drop n ≠ [] := by
                intro hc
                exact hr (by rw [hc]; exact chunkListAux_nil n fuel)
              have hlen : n < (x :: rest).length := by
                by_contra hle
                exact hd (List.drop_eq_nil_of_le (Nat.le_of_not_lt hle))
              simp only [List.length_take]
              omega
            · exact ih _ b hb2

/-! ### The mic-client trailer (finish_stream) under cancellation

`finish_stream` never clears the `finalized` flag (it has no
`CancelledError` arm), so any invocation after a first one is a no-op;
and since both of the mic client's `finish_stream` calls sit under
`asyncio.shield`, the trailer runs to completion on every exit path —
normal, `ConnectionClosed`, or cancellation — before the mic Sender
returns or re-raises. -/

theorem finishStream_flag (closeAt : Option ℕ) (sh : Bool) (st : SenderSt) :
    ((finishStream closeAt sh st).1).streamClosed = true := by
  by_cases hfl : st.streamClosed = true
  · rw [finishStream_sent closeAt sh st hfl]
    exact hfl
  · unfold finishStream
    simp only [hfl, Bool.false_eq_true, if_false]
    rcases h5 : sendNSilence closeAt sh 5 { st with streamClosed := true } with ⟨sta, oa⟩
    have ha : sta.streamClosed = true := by
      have h := sendNSilence_streamClosed closeAt sh 5 { st with streamClosed := true }
      rw [h5] at h
      simpa using h
    cases oa with
    | connClosed => simpa using ha
    | cancelled => simpa using ha
    | ok =>
        rcases hm : sendMarkerSuppressed closeAt sh sta with ⟨stb, ob⟩
        have hb : stb.streamClosed = true := by
          have h := sendMarkerSuppressed_streamClosed closeAt sh sta
          rw [hm] at h
          rw [h]
          exact ha
        dsimp only
        rw [hm]
        cases ob with
        | connClosed => simpa using hb
        | cancelled => simpa using hb
        | ok =>
            rcases h35 : sendNSilence closeAt sh 35 stb with ⟨stc, oc⟩
            have hc : stc.streamClosed = true := by
              have h := sendNSilence_streamClosed closeAt sh 35 stb
              rw [h35] at h
              rw [h]
              exact hb
            dsimp only
            rw [h35]
            cases oc with
            | ok => simpa using hc
            | connClosed => simpa using hc
            | cancelled => simpa using hc

theorem sendFrame_shielded_none (f : WireMessage) (st : SenderSt) :
    sendFrame none true f st =
      (⟨st.frames ++ [f], st.streamClosed, st.pendingCancel⟩, Outcome.ok) := rfl

theorem sendNSilence_shielded_none (n : ℕ) (st : SenderSt) :
    sendNSilence none true n st =
      (⟨st.frames ++ List.replicate n silenceFrame, st.streamClosed, st.pendingCancel⟩,
        Outcome.ok) := by
  induction n generalizing st with
  | zero =>
      unfold sendNSilence
      cases st
      simp
  | succ n ih =>
      unfold sendNSilence
      rw [sendFrame_shielded_none]
      dsimp only
      rw [ih]
      simp [List.replicate_succ]

theorem sendMarkerSuppressed_shielded_none (st : SenderSt) :
    sendMarkerSuppressed none true st =
      (⟨st.frames ++ [markerFrame], st.streamClosed, st.pendingCancel⟩, Outcome.ok) := by
  unfold sendMarkerSuppressed
  rw [sendFrame_shielded_none]

theorem finishStream_shielded_none (st : SenderSt) (hfl : st.streamClosed = false) :
    finishStream none true st =
      (⟨st.frames ++ trailerFrames, true, st.pendingCancel⟩, Outcome.ok) := by
  unfold finishStream
  simp only [hfl, Bool.false_eq_true, if_false]
  rw [sendNSilence_shielded_none]
  dsimp only
  rw [sendMarkerSuppressed_shielded_none]
  dsimp only
  rw [sendNSilence_shielded_none]
  dsimp only
  simp [trailerFrames]

theorem micSendLoop_none (stopEvent : Bool) (queue : List (Option (List ℚ)))
    (st st2 : SenderSt) (o : Outcome)
    (h : micSendLoop none stopEvent queue st = (st2, o)) :
    ¬ o = Outcome.connClosed ∧ st2.streamClosed = st.streamClosed := by
  induction queue generalizing st with
  | nil =>
      unfold micSendLoop at h
      injection h with h1 h2
      subst h1
      exact ⟨by simp [← h2], rfl⟩
  | cons item rest ih =>
      unfold micSendLoop at h
      rcases hsl : sleepAwait false st with ⟨st1, o1⟩
      rw [hsl] at h
      rcases sleepAwait_unshielded st st1 o1 hsl with ⟨ho1, p1, hst1⟩ | ⟨ho1, hp1, hfl1, _⟩
      · subst ho1
        dsimp only at h
        cases item with
        | none =>
            injection h with h1 h2
            subst h1
            exact ⟨by simp [← h2], by rw [hst1]⟩
        | some chunk =>
            dsimp only at h
            rcases hsf : sendFrame none false (.audio chunk) st1 with ⟨stf, of⟩
            rw [hsf] at h
            rcases sendFrame_none false (.audio chunk) st1 stf of hsf with
              ⟨ho2, p2, hstf⟩ | ⟨ho2, hp2, hfl2, _⟩
            · subst ho2
              dsimp only at h
              by_cases hse : stopEvent = true
              · rw [if_pos hse] at h
                injection h with h1 h2
                subst h1
                exact ⟨by simp [← h2], by rw [hstf, hst1]⟩
              · rw [if_neg hse] at h
                have hrec := ih stf h
                refine ⟨hrec.1, ?_⟩
                rw [hrec.2, hstf, hst1]
            · subst ho2
              dsimp only at h
              injection h with h1 h2
              subst h1
              refine ⟨by simp [← h2], ?_⟩
              rw [hfl2, hst1]
      · subst ho1
        dsimp only at h
        injection h with h1 h2
        subst h1
        exact ⟨by simp [← h2], hfl1⟩

/-- Over a never-closing connection, the mic Sender's frame trace always
ends with the complete trailer handshake and the `finalized` flag ends
set, whether or not a cancellation was delivered at any await point: the
shielded `finish_stream` runs to completion before `CancelledError`
escapes `send_messages`. -/
theorem micSendMessages_trailer (stopEvent : Bool) (queue : List (Option (List ℚ)))
    (p : Option ℕ) :
    (∃ pre, ((micSendMessages none p stopEvent queue).1).frames = pre ++ trailerFrames) ∧
    ((micSendMessages none p stopEvent queue).1).streamClosed = true ∧
    ¬ (micSendMessages none p stopEvent queue).2 = Outcome.connClosed := by
  unfold micSendMessages
  dsimp only
  rcases hl : micSendLoop none stopEvent queue ⟨[], false, p⟩ with ⟨st1, o1⟩
  have hc := micSendLoop_none stopEvent queue ⟨[], false, p⟩ st1 o1 hl
  cases o1 with
  | connClosed => exact absurd rfl hc.1
  | ok =>
      dsimp only
      rw [finishStream_shielded_none st1 (by simpa using hc.2)]
      exact ⟨⟨st1.frames, rfl⟩, rfl, by simp⟩
  | cancelled =>
      dsimp only
      rw [finishStream_shielded_none st1 (by simpa using hc.2)]
      dsimp only
      rw [finishStream_sent none true _ rfl]
      exact ⟨⟨st1.frames, rfl⟩, rfl, by simp⟩

/-! ### Claim theorems -/
/-- C1: for every finite input audio, the file-mode Sender's frame trace
over the connection is exactly one lead-in silence Audio frame, the N
audio block frames in source order, 5 trailer lead-out silence frames,
exactly one Marker frame, and 35 post-marker silence frames —
`1 + N + 5 + 1 + 35` frames in that strict order, where N is the number
of blocks the input slices into. -/
theorem C1_sender_frame_sequence (audio : List ℚ) :
    ((sendMessages none none audio).1).frames =
      [silenceFrame] ++ (chunkAudio audio).map WireMessage.audio
        ++ List.replicate 5 silenceFrame ++ [markerFrame]
        ++ List.replicate 35 silenceFrame ∧
    ((sendMessages none none audio).1).frames.length =
      1 + (chunkAudio audio).length + 5 + 1 + 35 ∧
    (sendMessages none none audio).2 = Outcome.ok := by
  rw [sendMessages_no_fault audio]
  refine ⟨?_, ?_, rfl⟩
  · simp [trailerFrames]
  · simp [trailerFrames]
    omega

/-- C2: the trailer handshake runs at most once per session in both
clients.  File client: after a `send_stream_end` that returned normally,
any further invocation (shielded or not) is a no-op via the trailer-sent
flag, and a cancellation delivered at any await point from the first
block send onwards still produces a normally returning Sender whose frame
trace ends with the complete, untruncated trailer handshake, because the
handshake is (re)run to completion under the cancellation shield.  Mic
client: `finish_stream` never clears its `finalized` flag, so any
invocation after a first call is a no-op, and on every session — with a
cancellation delivered at any await point or none at all — the Sender's
trace ends with the complete trailer and the flag set before the Sender
returns or lets `CancelledError` propagate (both `finish_stream` calls
are shielded). -/
theorem C2_trailer_idempotent_and_shielded :
    (∀ closeAt sh sh2 st, (sendStreamEnd closeAt sh st).2 = Outcome.ok →
      sendStreamEnd closeAt sh2 ((sendStreamEnd closeAt sh st).1) =
        (((sendStreamEnd closeAt sh st).1), Outcome.ok)) ∧
    (∀ audio k, 1 ≤ k →
      (sendMessages none (some k) audio).2 = Outcome.ok ∧
      ∃ pre, ((sendMessages none (some k) audio).1).frames = pre ++ trailerFrames) ∧
    (∀ closeAt sh sh2 st,
      finishStream closeAt sh2 ((finishStream closeAt sh st).1) =
        (((finishStream closeAt sh st).1), Outcome.ok)) ∧
    (∀ stopEvent queue p,
      (∃ pre, ((micSendMessages none p stopEvent queue).1).frames =
        pre ++ trailerFrames) ∧
      ((micSendMessages none p stopEvent queue).1).streamClosed = true ∧
      ¬ (micSendMessages none p stopEvent queue).2 = Outcome.connClosed) := by
  refine ⟨?_, ?_, ?_, micSendMessages_trailer⟩
  · intro closeAt sh sh2 st h
    exact sendStreamEnd_sent closeAt sh2 _ (sendStreamEnd_ok_flag closeAt sh st h)
  · intro audio k hk
    obtain ⟨j, rfl⟩ : ∃ j, k = j + 1 := ⟨k - 1, (Nat.succ_pred_eq_of_pos hk).symm⟩
    exact sendMessages_cancel_trailer audio j
  · intro closeAt sh sh2 st
    exact finishStream_sent closeAt sh2 _ (finishStream_flag closeAt sh st)

theorem C2_witness :
    (sendStreamEnd none true ((sendStreamEnd none true ⟨[], true, none⟩).1) =
      (((sendStreamEnd none true ⟨[], true, none⟩).1), Outcome.ok)) ∧
    ((sendMessages none (some 1) []).2 = Outcome.ok ∧
      ∃ pre, ((sendMessages none (some 1) []).1).frames = pre ++ trailerFrames) ∧
    (finishStream none true ((finishStream none true ⟨[], false, some 0⟩).1) =
      (((finishStream none true ⟨[], false, some 0⟩).1), Outcome.ok)) ∧
    ((∃ pre, ((micSendMessages none (some 0) false [some [1]]).1).frames =
        pre ++ trailerFrames) ∧
      ((micSendMessages none (some 0) false [some [1]]).1).streamClosed = true ∧
      ¬ (micSendMessages none (some 0) false [some [1]]).2 = Outcome.connClosed) :=
  ⟨C2_trailer_idempotent_and_shielded.1 none true true ⟨[], true, none⟩ rfl,
    C2_trailer_idempotent_and_shielded.2.1 [] 1 (by decide),
    C2_trailer_idempotent_and_shielded.2.2.1 none true true ⟨[], false, some 0⟩,
    C2_trailer_idempotent_and_shielded.2.2.2 false [some [1]] (some 0)⟩

/-- C3: on every session outcome (normal completion, task error, external
cancellation) the coordinator drives shutdown: the socket ends closed,
the close handshake frame — code 1000, reason "client finished
streaming" — is sent exactly once when the socket was still open and not
at all when it was already closed, and `_close_websocket` is idempotent,
so a second close-frame send never occurs. -/
theorem C3_close_exactly_once (ec : Bool) (sr : SendTaskRes) (rr : RecvTaskRes)
    (sock : Socket) :
    ((streamAudio ec sr rr sock).1).closed = true ∧
    ((streamAudio ec sr rr sock).1).closeFrames =
      sock.closeFrames ++
        (if sock.closed = true then [] else [(1000, WS_CLOSE_REASON)]) ∧
    closeWebsocket (closeWebsocket sock) = closeWebsocket sock := by
  by_cases h : sock.closed = true
  · simp [streamAudio, closeWebsocket, h]
  · simp [streamAudio, closeWebsocket, h]

/-- C7: `stream_audio` distinguishes failure from cancellation: a task
that ended with a non-cancellation exception makes it raise that
exception (send checked first); with no such exception, a cancellation —
external or a task's `CancelledError` result — makes it raise
`CancelledError`; otherwise it returns the receiver's transcript. -/
theorem C7_failure_vs_cancellation (ec : Bool) (sr : SendTaskRes) (rr : RecvTaskRes) :
    (∀ e, sr = SendTaskRes.exnSend e →
      streamAudioOutcome ec sr rr = StreamOutcome.raised e) ∧
    (∀ e, rr = RecvTaskRes.exnRecv e → (∀ x, sr ≠ SendTaskRes.exnSend x) →
      streamAudioOutcome ec sr rr = StreamOutcome.raised e) ∧
    ((∀ x, sr ≠ SendTaskRes.exnSend x) → (∀ x, rr ≠ RecvTaskRes.exnRecv x) →
      (ec = true ∨ sr = SendTaskRes.cancelledSend ∨ rr = RecvTaskRes.cancelledRecv) →
      streamAudioOutcome ec sr rr = StreamOutcome.raisedCancelled) ∧
    (∀ t, ec = false → sr = SendTaskRes.okSend → rr = RecvTaskRes.okRecv t →
      streamAudioOutcome ec sr rr = StreamOutcome.returned t) := by
  cases sr <;> cases rr <;> cases ec <;>
    simp [streamAudioOutcome, SendTaskRes.isCancelled, RecvTaskRes.isCancelled]

theorem C7_witness :
    streamAudioOutcome false SendTaskRes.okSend (RecvTaskRes.okRecv []) =
      StreamOutcome.returned [] :=
  (C7_failure_vs_cancellation false SendTaskRes.okSend (RecvTaskRes.okRecv [])).2.2.2
    [] rfl rfl rfl

/-- C4 counterexample: after the block at loop offset i = 1920 the source
computes `start_time + (1920 + 1) / SAMPLE_RATE / rtf`, which (at
start_time = 0, rtf = 1) matches the spec's
`start_time + samples_sent_so_far / sample_rate / rtf` under neither
reading of `samples_sent_so_far` — 1920 samples sent before that block,
3840 sent after it. -/
theorem C4_counterexample :
    expectedSendTime 0 1 1920 ≠ expectedSendTimeSpec 0 1 1920 ∧
    expectedSendTime 0 1 1920 ≠ expectedSendTimeSpec 0 1 3840 := by
  constructor
  · norm_num [expectedSendTime, expectedSendTimeSpec, SAMPLE_RATE]
  · norm_num [expectedSendTime, expectedSendTimeSpec, SAMPLE_RATE]

/-- C4 (amended): the Sender paces with
`expected_send_time = start_time + (i + 1) / SAMPLE_RATE / rtf`, where `i`
is the sample offset of the block just sent (the samples sent in earlier
loop iterations, not the total including the current block).  The resume
instant never precedes that expected time nor the current time; when the
current time is earlier the Sender suspends until exactly the expected
instant, and otherwise it proceeds after exactly one millisecond — so it
never outruns the code's pacing schedule and never blocks indefinitely
when behind. -/
theorem C4_amended_pacing (startTime rtf current : ℚ) (i : ℕ) :
    expectedSendTime startTime rtf i ≤
      pacingResume (expectedSendTime startTime rtf i) current ∧
    current ≤ pacingResume (expectedSendTime startTime rtf i) current ∧
    (current < expectedSendTime startTime rtf i →
      pacingResume (expectedSendTime startTime rtf i) current =
        expectedSendTime startTime rtf i) ∧
    (expectedSendTime startTime rtf i ≤ current →
      pacingResume (expectedSendTime startTime rtf i) current = current + 1 / 1000) := by
  unfold pacingResume
  by_cases h : current < expectedSendTime startTime rtf i
  · refine ⟨by simp [h], by simp [h, le_of_lt h], fun _ => by simp [h], fun hle => ?_⟩
    exact absurd h (not_lt.mpr hle)
  · refine ⟨?_, by simp [h], fun hlt => absurd hlt h, fun _ => by simp [h]⟩
    have hle := not_lt.mp h
    simp only [h, if_false]
    linarith

theorem C4_witness :
    pacingResume (expectedSendTime 0 1 0) 1 = 1 + 1 / 1000 :=
  (C4_amended_pacing 0 1 1 0).2.2.2
    (by norm_num [expectedSendTime, SAMPLE_RATE])

/-- C5 counterexample: after `Word "hi" 1` then `EndWord 2` the transcript
holds a single closed entry (stop 2 ≠ start 1), so no entry is open; yet a
further `EndWord 3` rewrites that closed entry's stop time, so the
transcript list does not stay unchanged. -/
theorem C5_counterexample :
    (∀ e ∈ receiveMessages [] [WireMessage.word ("hi") 1, WireMessage.endWord 2],
      ¬ e.stopTime = e.startTime) ∧
    ¬ receiveMessages [] [WireMessage.word ("hi") 1, WireMessage.endWord 2,
        WireMessage.endWord 3] =
      receiveMessages [] [WireMessage.word ("hi") 1, WireMessage.endWord 2] := by
  constructor
  · intro e he
    simp only [receiveMessages, receiveStep, setLastStop] at he
    rw [List.mem_singleton] at he
    subst he
    norm_num
  · simp only [receiveMessages, receiveStep, setLastStop]
    intro hc
    rw [List.cons.injEq] at hc
    have := congrArg TranscriptEntry.stopTime hc.1
    norm_num at this

/-- C5 (amended): receiving `EndWord` with an empty transcript is a no-op
— the `len(transcript) > 0` guard leaves the list unchanged and cannot
raise — while on a non-empty transcript it overwrites the stop time of the
last entry, whether or not that entry is still open. -/
theorem C5_amended_endword (s : ℚ) (t : List TranscriptEntry) (e : TranscriptEntry) :
    receiveStep [] (WireMessage.endWord s) = [] ∧
    receiveStep (t ++ [e]) (WireMessage.endWord s) = t ++ [{ e with stopTime := s }] :=
  ⟨rfl, setLastStop_append t e s⟩

/-- C6: with VAD display enabled the pause indicator is edge-triggered:
on a Step whose pause probability `prs[2]` exceeds 0.5 it is printed
exactly when speech was previously active, and over any following
Word-free suffix it is never printed again, however high the probability
stays; a non-triggering Step prints nothing and leaves the flag alone,
and only a Word message re-arms the flag. -/
theorem C6_pause_indicator_edge_triggered (b : Bool) (prs : List ℚ)
    (suffix : List WireMessage)
    (hp : (1 / 2 : ℚ) < prs.getD PAUSE_PREDICTION_HEAD_INDEX 0)
    (hw : ∀ m ∈ suffix, isWordMsg m = false) :
    (vadRun true b (WireMessage.step prs :: suffix)).2 = (if b then 1 else 0) ∧
    (∀ b2 prs2,
      ¬ ((1 / 2 : ℚ) < prs2.getD PAUSE_PREDICTION_HEAD_INDEX 0 ∧ b2 = true) →
      vadStep true b2 (WireMessage.step prs2) = (b2, false)) ∧
    (∀ b3 w q, vadStep true b3 (WireMessage.word w q) = (true, false)) := by
  refine ⟨?_, ?_, fun b3 w q => rfl⟩
  · have hrest := (vadRun_no_word_inactive suffix hw).2
    cases b with
    | true =>
        have hstep : vadStep true true (WireMessage.step prs) = (false, true) := by
          have hcond : true = true ∧
              (1 / 2 : ℚ) < prs.getD PAUSE_PREDICTION_HEAD_INDEX 0 ∧ true = true :=
            ⟨rfl, hp, rfl⟩
          show (if true = true ∧
              (1 / 2 : ℚ) < prs.getD PAUSE_PREDICTION_HEAD_INDEX 0 ∧ true = true then
              ((false : Bool), (true : Bool))
            else (true, false)) = (false, true)
          rw [if_pos hcond]
        simp [vadRun, hstep, hrest]
    | false =>
        have hstep : vadStep true false (WireMessage.step prs) = (false, false) := by
          simp [vadStep]
        simp [vadRun, hstep, hrest]
  · intro b2 prs2 hcond
    simp only [vadStep]
    rw [if_neg]
    intro hc
    exact hcond ⟨hc.2.1, hc.2.2⟩

theorem C6_witness :
    (vadRun true true [WireMessage.step [0, 0, 9 / 10, 0],
      WireMessage.step [0, 0, 9 / 10, 0], WireMessage.step [0, 0, 1, 0]]).2 = 1 :=
  (C6_pause_indicator_edge_triggered true [0, 0, 9 / 10, 0]
    [WireMessage.step [0, 0, 9 / 10, 0], WireMessage.step [0, 0, 1, 0]]
    (by norm_num [PAUSE_PREDICTION_HEAD_INDEX, List.getD]) (by decide)).1

/-- C8 counterexample: in the file client, with the connection closing
after the lead-in frame was delivered, the very first main-loop block
send finds it closed and `send_messages` ends with `ConnectionClosed`
propagating out of the coroutine (the main loop catches only
`CancelledError`) instead of logging and returning normally. -/
theorem C8_counterexample :
    (sendMessages (some 1) none [0]).2 = Outcome.connClosed ∧
    ¬ (sendMessages (some 1) none [0]).2 = Outcome.ok := by
  have h : (sendMessages (some 1) none [0]).2 = Outcome.connClosed := rfl
  refine ⟨h, ?_⟩
  rw [h]
  decide

/-- C8 (amended): the mic-client Sender catches `ConnectionClosed` and
always returns normally, whatever the connection does; in the file client
only the trailer handshake swallows it — `send_stream_end` always returns
normally — while a `ConnectionClosed` raised on the lead-in send
(connection closed from the start) or on a main-loop block send
(connection closed right after the lead-in frame) propagates out of
`send_messages`. -/
theorem C8_amended_connection_closed :
    (∀ closeAt stopEvent queue,
      (micSendMessages closeAt none stopEvent queue).2 = Outcome.ok) ∧
    (∀ closeAt sh st, st.pendingCancel = none →
      (sendStreamEnd closeAt sh st).2 = Outcome.ok) ∧
    (∀ audio, (sendMessages (some 0) none audio).2 = Outcome.connClosed) ∧
    (∀ audio, ¬ audio = [] →
      (sendMessages (some 1) none audio).2 = Outcome.connClosed) := by
  refine ⟨micSendMessages_ok,
    fun closeAt sh st hp => (sendStreamEnd_no_pending closeAt sh st hp).1,
    fun audio => rfl, ?_⟩
  intro audio ha
  cases audio with
  | nil => exact absurd rfl ha
  | cons x xs => rfl

theorem C8_witness :
    (micSendMessages (some 0) none false [some [1]]).2 = Outcome.ok ∧
    (sendStreamEnd (some 0) false ⟨[], false, none⟩).2 = Outcome.ok ∧
    (sendMessages (some 0) none [0]).2 = Outcome.connClosed ∧
    (sendMessages (some 1) none [0]).2 = Outcome.connClosed :=
  ⟨C8_amended_connection_closed.1 (some 0) false [some [1]],
    C8_amended_connection_closed.2.1 (some 0) false ⟨[], false, none⟩ rfl,
    C8_amended_connection_closed.2.2.1 [0],
    C8_amended_connection_closed.2.2.2 [0] (by simp)⟩

/-- C9: round-trip — decoding the client's field-name-keyed encoding of
any WireMessage variant (Audio, Word, EndWord, Step, Marker) yields the
original message. -/
theorem C9_codec_round_trip (m : WireMessage) : decode (encode m) = some m := by
  cases m with
  | audio pcm => simp [encode, decode, mapLookup, asNums_map_num]
  | word t s => simp [encode, decode, mapLookup]
  | endWord s => simp [encode, decode, mapLookup]
  | step prs => simp [encode, decode, mapLookup, asNums_map_num]
  | marker i => simp [encode, decode, mapLookup]

/-- C10 counterexample: the lead-in frame of a fault-free run carries
`SILENCE_SECOND` — a full second of 24000 samples — not one 1920-sample
block. -/
theorem C10_counterexample :
    ((sendMessages none none []).1).frames.head? =
      some (WireMessage.audio SILENCE_SECOND) ∧
    SILENCE_SECOND.length = 24000 ∧ ¬ (24000 : ℕ) = FRAME_SIZE := by
  refine ⟨?_, ?_, by decide⟩
  · rw [sendMessages_no_fault]
    rfl
  · exact List.length_replicate SAMPLE_RATE 0

/-- C10 (amended): real audio frames carry one block of at most
FRAME_SIZE = 1920 samples — exactly 1920 for every block except possibly
the last, and the blocks concatenate back to the input — while the
lead-in and every trailer silence frame carry one full second,
SAMPLE_RATE = 24000 samples. -/
theorem C10_amended_block_sizes (audio : List ℚ) :
    SILENCE_SECOND.length = SAMPLE_RATE ∧
    (chunkAudio audio).flatten = audio ∧
    (∀ b ∈ chunkAudio audio, 0 < b.length ∧ b.length ≤ FRAME_SIZE) ∧
    (∀ b ∈ (chunkAudio audio).dropLast, b.length = FRAME_SIZE) := by
  refine ⟨List.length_replicate SAMPLE_RATE 0, ?_, ?_, ?_⟩
  · exact chunkListAux_join FRAME_SIZE (by decide) audio.length audio le_rfl
  · exact chunkListAux_mem_length FRAME_SIZE (by decide) audio.length audio
  · exact chunkListAux_dropLast_length FRAME_SIZE audio.length audio

theorem C10_witness :
    0 < ([1, 2] : List ℚ).length ∧ ([1, 2] : List ℚ).length ≤ FRAME_SIZE :=
  (C10_amended_block_sizes [1, 2]).2.2.1 [1, 2]
    (by rw [show chunkAudio [1, 2] = [[1, 2]] from rfl]; exact List.mem_singleton.mpr rfl)

end StreamingClient
